import Mathlib

/-!
Verification development for the open-exoplanet-catalogue-python repository.

The development shallowly embeds:
* the catalog record format and the hierarchy builder (`database.py`; the
  module itself is not under `src/`, so the builder is modelled from the
  spec together with the behaviour pinned down by `tests/test_database.py`);
* the `AstroObject` canonical string form and the Python rendering of a
  list of objects;
* the star-ancestor ("star."-relative) path resolution of the quantity
  resolver, modelled from the spec (`astroclasses.py` is not under `src/`);
* the equation-engine sentinel discipline, modelled from the spec
  (`equations.py` is not under `src/`);
* the figure helpers `_getInputObjectTypes`, `_getParLabelAndUnit`, the
  parameter tables `_planetPars`/`_starPars`, `sortValueIntoGroup` and
  `DataPerParameterBin._genKeysBins` from `oecpy/plots.py` (real source).

Machine floats only ever flow through comparisons in the embedded code, so
they are modelled as rationals extended with `nan`/`±inf` and the IEEE
comparison tables; no rounding behaviour is involved.
-/

/-- The tag vocabulary of catalog records: `system`, `binary`, `star`, `planet`. -/
inductive Tag where
  | system
  | binary
  | star
  | planet
deriving DecidableEq

/-- A raw nested catalog record: a tagged element with a `name` text value and
its child elements in document order (the `<name>` text element is kept as the
`name` field, not as a child). -/
inductive Element where
  | mk (tag : Tag) (name : String) (children : List Element)

def Element.tag : Element → Tag
  | .mk t _ _ => t

def Element.name : Element → String
  | .mk _ n _ => n

def Element.children : Element → List Element
  | .mk _ _ cs => cs

/-- The four AstroObject kinds. -/
inductive Kind where
  | System
  | Binary
  | Star
  | Planet
deriving DecidableEq

/-- A constructed AstroObject node: kind, name, and ordered children.
Parent back-references are recovered from positions in the tree
(see `ancestorsAt`). -/
inductive AObj where
  | mk (kind : Kind) (name : String) (children : List AObj)

def AObj.kind : AObj → Kind
  | .mk k _ _ => k

def AObj.name : AObj → String
  | .mk _ n _ => n

def AObj.children : AObj → List AObj
  | .mk _ _ cs => cs

/-- `ElementTree.findall(tag)`: the direct children with a given tag, in
document order. -/
def findall (t : Tag) (e : Element) : List Element :=
  e.children.filter (fun c => decide (c.tag = t))

theorem sizeOf_lt_of_mem_findall {t : Tag} {a e : Element} (h : a ∈ findall t e) :
    sizeOf a < sizeOf e := by
  cases e with
  | mk tg n cs =>
    have h1 : a ∈ cs ∧ a.tag = t := by
      simpa [findall, Element.children, List.mem_filter] using h
    have h2 := List.sizeOf_lt_of_mem h1.1
    simp only [Element.mk.sizeOf_spec]
    omega

/-- Modelled from the spec: `database.py` (the hierarchy builder) is not under
`src/`. A planet record always becomes a leaf Planet node (spec section 3). -/
def buildPlanet (e : Element) : AObj :=
  AObj.mk .Planet e.name []

/-- Modelled from the spec: `database.py` is not under `src/`. A star record
becomes a Star node whose children are its planet child records, in document
order (spec sections 3 and 4.2). -/
def buildStar (e : Element) : AObj :=
  AObj.mk .Star e.name ((findall .planet e).map buildPlanet)

/-- Modelled from the spec: `database.py` is not under `src/`. A binary record
becomes a Binary node; its children are built from the nested binary records,
then the star records, then the planet records (each group in document order).
The grouping by kind is fixed by `tests/test_database.py`
(`test_correct_double_binary_star_planet_system`: the children of
`Binary 5AB` stringify with `Binary 5B-AB` before `Star 5A`, while in the
source record the star appears first). -/
def buildBinary (e : Element) : AObj :=
  AObj.mk .Binary e.name
    ((findall .binary e).attach.map (fun c => buildBinary c.1)
      ++ (findall .star e).map buildStar
      ++ (findall .planet e).map buildPlanet)
termination_by sizeOf e
decreasing_by exact sizeOf_lt_of_mem_findall c.2

/-- Modelled from the spec: `database.py` is not under `src/`. A system record
becomes the root System node; its children are built from the nested binary
records then the star records (spec sections 3 and 4.2; a System never has a
Planet child because only binary and star child records are collected). -/
def buildSystem (e : Element) : AObj :=
  AObj.mk .System e.name
    ((findall .binary e).map buildBinary ++ (findall .star e).map buildStar)

theorem map_attach_fn {α β : Type} (l : List α) (f : α → β) :
    l.attach.map (fun x => f x.1) = l.map f := by
  rw [List.attach_map_val]

/-- Unconditional unfolding of `buildBinary` without the `attach` device. -/
theorem buildBinary_eq (e : Element) :
    buildBinary e = AObj.mk .Binary e.name
      ((findall .binary e).map buildBinary ++ (findall .star e).map buildStar
        ++ (findall .planet e).map buildPlanet) := by
  rw [buildBinary, map_attach_fn]

theorem kind_buildBinary (e : Element) : (buildBinary e).kind = .Binary := by
  rw [buildBinary_eq]
  rfl

theorem name_buildBinary (e : Element) : (buildBinary e).name = e.name := by
  rw [buildBinary_eq]
  rfl

theorem kind_buildStar (e : Element) : (buildStar e).kind = .Star := rfl

theorem name_buildStar (e : Element) : (buildStar e).name = e.name := rfl

theorem name_buildSystem (e : Element) : (buildSystem e).name = e.name := rfl

theorem name_buildPlanet (e : Element) : (buildPlanet e).name = e.name := rfl

/-- A single quote character, as a string. -/
def pyQuote : String := "\x27"

def kindStr : Kind → String
  | .System => "System"
  | .Binary => "Binary"
  | .Star => "Star"
  | .Planet => "Planet"

/-- Modelled from the spec: the `__repr__` of an AstroObject (defined in
`astroclasses.py`, not under `src/`) is the canonical form
`<Kind>('<name>')`, as pinned down by the string assertions in
`tests/test_database.py`. -/
def reprA (o : AObj) : String :=
  kindStr o.kind ++ "(" ++ pyQuote ++ o.name ++ pyQuote ++ ")"

/-- The tail of Python `str(list)`: `", " + repr(x)` for each further element. -/
def strAListTail : List AObj → String
  | [] => ""
  | y :: ys => ", " ++ reprA y ++ strAListTail ys

/-- Python `str` of a list of AstroObjects: `[` + the comma-separated
`repr`s of the elements, in list order + `]`. -/
def strAList : List AObj → String
  | [] => "[]"
  | x :: xs => "[" ++ reprA x ++ strAListTail xs ++ "]"

/-- The fake catalog records created by `TestDataBaseLoading._createFakeXML`. -/
def sys1El : Element := .mk .system "System 1" [.mk .star "Star 1" []]

def sys2El : Element :=
  .mk .system "System 2" [.mk .star "Star 2" [.mk .planet "Planet 2 b" []]]

def sys3El : Element :=
  .mk .system "System 3"
    [.mk .star "Star 3" [.mk .planet "Planet 3 b" [], .mk .planet "Planet 3 c" []]]

def sys4El : Element :=
  .mk .system "System 4"
    [.mk .binary "Binary 4AB"
      [.mk .star "Star 4A" [.mk .planet "Planet 4A b" []], .mk .star "Star 4B" []]]

/-- The `Binary 5AB` element of the System 5 record: in document order its
child records are the star `Star 5A` and then the nested binary
`Binary 5B-AB`. -/
def binary5El : Element :=
  .mk .binary "Binary 5AB"
    [.mk .star "Star 5A" [],
     .mk .binary "Binary 5B-AB"
       [.mk .star "Star 5B-A" [.mk .planet "Planet 5B-A b" []],
        .mk .star "Star 5B-B" []]]

def sys5El : Element := .mk .system "System 5" [binary5El]

/-- The `Binary 6AB` element of the System 6 record: two stars and a planet
parented directly by the binary. -/
def binary6El : Element :=
  .mk .binary "Binary 6AB"
    [.mk .star "Star 6A" [], .mk .star "Star 6B" [], .mk .planet "Planet 6AB b" []]

def sys6El : Element := .mk .system "System 6" [binary6El]

def testFiles : List Element := [sys1El, sys2El, sys3El, sys4El, sys5El, sys6El]

/-- The node of a built tree at a position (a list of child indices). -/
def nodeAt : AObj → List Nat → Option AObj
  | t, [] => some t
  | t, i :: rest =>
    match t.children[i]? with
    | some c => nodeAt c rest
    | none => none

/-- The ancestor chain (walking `parent` links upward, nearest ancestor first)
of the node of a built tree at a position. -/
def ancestorsAt : AObj → List Nat → Option (List AObj)
  | _, [] => some []
  | t, i :: rest =>
    match t.children[i]? with
    | some c => (ancestorsAt c rest).map (fun l => l ++ [t])
    | none => none

/-- Modelled from the spec: the quantity resolver (`astroclasses.py`, not under
`src/`) raises `HierarchyError` exactly when a star-relative path has no Star
ancestor to resolve against (spec sections 4.4 and 7). -/
inductive HierarchyError where
  | noStarAncestor
deriving DecidableEq

/-- Modelled from the spec: the nearest Star ancestor, found by walking the
`parent` links upward (the chain is ordered nearest ancestor first). -/
def findStarAncestor : List AObj → Option AObj
  | [] => none
  | a :: rest => if a.kind = .Star then some a else findStarAncestor rest

/-- Modelled from the spec: resolving a star-relative path (prefix `star.`)
against an object resolves the remaining path against the nearest Star
ancestor; when no Star ancestor exists the resolver raises `HierarchyError`
(`astroclasses.py` is not under `src/`). The resolution target (the Star
ancestor the stripped path is evaluated on) is returned. -/
def resolveStarRelative (chain : List AObj) (path : String) : Except HierarchyError AObj :=
  match findStarAncestor chain with
  | some s => .ok s
  | none => .error .noStarAncestor

/-- Modelled from the spec: `OECDatabase` (`database.py`, not under `src/`)
holds the list of loaded systems and the name index `systemDict`. -/
structure OECDatabase where
  systems : List AObj
  systemDict : List (String × AObj)

/-- Modelled from the spec: loading a directory of catalog files builds one
System tree per file and then the name index
`{system.name: system for system in systems}` (spec sections 2, 4.1 and 6;
`database.py` is not under `src/`). -/
def loadDatabase (files : List Element) : OECDatabase :=
  let systems := files.map buildSystem
  { systems := systems, systemDict := systems.map (fun s => (s.name, s)) }

/-- Lookup in the name index; as in a Python dict built by comprehension, a
later binding of the same key wins. -/
def dictLookup (d : List (String × AObj)) (k : String) : Option AObj :=
  ((d.filter (fun kv => decide (kv.1 = k))).getLast?).map Prod.snd

/-- Errors raised by the figure components in `oecpy/plots.py`. -/
inductive PlotError where
  | typeError
  | indexError
  | keyError
deriving DecidableEq

/-- `_AstroObjectFigs._getInputObjectTypes` (`oecpy/plots.py` lines 129-138):
takes the type of the first object and raises `TypeError` if any object in the
list has a different type; object types are modelled by their `Kind`. An empty
list raises `IndexError` at `objectList[0]`. -/
def _getInputObjectTypes (objectList : List Kind) : Except PlotError Kind :=
  match objectList with
  | [] => .error .indexError
  | firstObjectType :: _ =>
    if objectList.all (fun a => decide (firstObjectType = a)) then .ok firstObjectType
    else .error .typeError

/-- Does `text` start with `pat` (on character lists)? -/
def charsStartWith : List Char → List Char → Bool
  | [], _ => true
  | _ :: _, [] => false
  | p :: ps, c :: cs => p == c && charsStartWith ps cs

/-- Does `pat` occur as a contiguous substring of `text`? Models the Python
`pat in text` test on strings. -/
def charsContain (pat : List Char) : List Char → Bool
  | [] => pat.isEmpty
  | c :: rest => charsStartWith pat (c :: rest) || charsContain pat rest

/-- Python `pat in s` on strings. -/
def strContains (s pat : String) : Bool := charsContain pat.data s.data

/-- Python `s.startswith(pat)`. -/
def strStartsWith (s pat : String) : Bool := charsStartWith pat.data s.data

/-- Python `s[n:]`. -/
def pyDrop (n : Nat) (s : String) : String := String.mk (s.data.drop n)

/-- The units appearing in the uncommented entries of the parameter tables of
`oecpy/plots.py` (`pq.*` and `aq.*` unit objects; `noneUnit` is Python `None`). -/
inductive UnitT where
  | noneUnit
  | day
  | R_j
  | M_j
  | Gyear
  | pc
  | K
  | ms2
  | gcm3
  | deg
  | au
  | L_s
  | R_s
  | M_s
deriving DecidableEq

/-- Association-list lookup, first binding wins; Python `d[key]` on a dict
literal with distinct keys. -/
def alookup (d : List (String × String × UnitT)) (k : String) : Option (String × UnitT) :=
  match d with
  | [] => none
  | kv :: rest => if kv.1 = k then some kv.2 else alookup rest k

/-- The uncommented entries of `_planetPars` (`oecpy/plots.py` lines 526-564),
in source order: paramKey ↦ (axis label, unit). -/
def _planetPars : List (String × String × UnitT) :=
  [("calcTransitDuration()", "Transit Duration", .day),
   ("calcTransitDepth()", "Transit Depth", .noneUnit),
   ("mu", "Mean Molecular Weight", .noneUnit),
   ("albedo()", "Planet Albedo", .noneUnit),
   ("e", "Planet Radius", .R_j),
   ("discoveryYear", "Discovery Year", .noneUnit),
   ("age", "Planet Age", .Gyear),
   ("d", "Distance to System", .pc),
   ("R", "Planet Radius", .R_j),
   ("T", "Planet Temperature", .K),
   ("M", "Planet Mass", .M_j),
   ("calcSurfaceGravity()", "Planet Surface Gravity", .ms2),
   ("calcLogg()", "Planet logg", .noneUnit),
   ("calcDensity()", "Planet Density", .gcm3),
   ("i", "Orbital Inclination", .deg),
   ("P", "Period", .day),
   ("a", "Semi-Major Axis", .au)]

/-- The uncommented entries of `_starPars` (`oecpy/plots.py` lines 566-590),
in source order. -/
def _starPars : List (String × String × UnitT) :=
  [("magV", "V Magnitude", .noneUnit),
   ("magB", "B Magnitude", .noneUnit),
   ("magH", "H Magnitude", .noneUnit),
   ("magI", "I Magnitude", .noneUnit),
   ("magJ", "J Magnitude", .noneUnit),
   ("magK", "K Magnitude", .noneUnit),
   ("d", "Distance to System", .pc),
   ("calcLuminosity()", "Stellar Luminosity", .L_s),
   ("Z", "Stellar Metallicity", .noneUnit),
   ("age", "Stellar Age", .Gyear),
   ("R", "Stellar Radius", .R_s),
   ("T", "Stellar Temperature", .K),
   ("M", "Stellar Mass", .M_s),
   ("calcSurfaceGravity()", "Planet Surface Gravity", .ms2),
   ("calcLogg()", "Stellar logg", .noneUnit),
   ("calcDensity()", "Stellar Density", .gcm3)]

/-- `_AstroObjectFigs._getParLabelAndUnit` (`oecpy/plots.py` lines 140-156):
for Planet lists, if `'star.' in param` the `star.` part is cut off
(`param[5:]`) and the star table consulted, otherwise the planet table; for
Star lists always the star table; any other type raises `TypeError`. A missing
key raises Python `KeyError`. The kind of the first object of the homogeneous
list stands in for `type(firstObject)`. -/
def _getParLabelAndUnit (kind : Kind) (param : String) : Except PlotError (String × UnitT) :=
  if kind = .Planet then
    if strContains param "star." then
      match alookup _starPars (pyDrop 5 param) with
      | some entry => .ok entry
      | none => .error .keyError
    else
      match alookup _planetPars param with
      | some entry => .ok entry
      | none => .error .keyError
  else if kind = .Star then
    match alookup _starPars param with
    | some entry => .ok entry
    | none => .error .keyError
  else .error .typeError

/-- Machine floats as they are used by `sortValueIntoGroup` and
`_genKeysBins`: only equality/order comparisons and `math.isnan` are applied
to them, so rationals extended with `nan` and `±inf` model them exactly. -/
inductive EFloat where
  | nan
  | ninf
  | fin (q : ℚ)
  | inf
deriving DecidableEq

/-- `math.isnan`. -/
def isnan : EFloat → Bool
  | .nan => true
  | _ => false

/-- IEEE `==` on the modelled floats: `nan` compares unequal to everything. -/
def ebeq : EFloat → EFloat → Bool
  | .nan, _ => false
  | _, .nan => false
  | .ninf, .ninf => true
  | .inf, .inf => true
  | .fin a, .fin b => decide (a = b)
  | _, _ => false

/-- IEEE `<` on the modelled floats: `nan` is incomparable. -/
def elt : EFloat → EFloat → Bool
  | .nan, _ => false
  | _, .nan => false
  | .ninf, .ninf => false
  | .ninf, _ => true
  | .fin a, .fin b => decide (a < b)
  | .fin _, .inf => true
  | .fin _, .ninf => false
  | .inf, _ => false

/-- IEEE `<=` on the modelled floats. -/
def ele (a b : EFloat) : Bool := elt a b || ebeq a b

/-- Errors raised by `sortValueIntoGroup` (`oecpy/plots.py` lines 474-521). -/
inductive SortError where
  | valueError
  | belowLimits
  | aboveLimits
  | indexError
deriving DecidableEq

/-- The `for i, limit in enumerate(groupLimits): if value < limit: keyIndex = i`
loop of `sortValueIntoGroup`: the index of the first limit strictly above
`value`, if any. -/
def findKeyIndex (value : EFloat) : List EFloat → Nat → Option Nat
  | [], _ => none
  | l :: ls, i => if elt value l then some i else findKeyIndex value ls (i + 1)

/-- `sortValueIntoGroup` (`oecpy/plots.py` lines 474-509). The length guard is
written `length groupKeys + 1 ≠ length groupLimits` because the Python check
compares (possibly negative) Python ints. `groupKeys[keyIndex-1]` out of range
would raise Python `IndexError`. -/
def sortValueIntoGroup (groupKeys : List String) (groupLimits : List EFloat)
    (value : EFloat) : Except SortError String :=
  if groupKeys.length + 1 ≠ groupLimits.length then .error .valueError
  else if isnan value then .ok "Uncertain"
  else
    let keyIndex : Option Nat :=
      if ebeq value (groupLimits.headD .nan) then some 1
      else if ebeq value (groupLimits.getLastD .nan) then some (groupLimits.length - 1)
      else findKeyIndex value groupLimits 0
    match keyIndex with
    | some 0 => .error .belowLimits
    | none => .error .aboveLimits
    | some (k + 1) =>
      match groupKeys[k]? with
      | some key => .ok key
      | none => .error .indexError

/-- Rendering of a limit into a bin key, standing in for Python `str(float)`. -/
def efRepr : EFloat → String
  | .nan => "nan"
  | .ninf => "-inf"
  | .inf => "inf"
  | .fin q => toString q

/-- The `for binlimit in midbinlimits[1:]` loop of `_genKeysBins`, carrying
`lastbin` along. -/
def genKeysLoop (lastbin : EFloat) : List EFloat → List String
  | [] => []
  | b :: bs =>
    (if ebeq lastbin b then efRepr b else efRepr lastbin ++ " to " ++ efRepr b)
      :: genKeysLoop b bs

/-- `DataPerParameterBin._genKeysBins` (`oecpy/plots.py` lines 329-357).
`none` models a Python `IndexError` (`binlimits[0]`, `midbinlimits[0]` or
`binlimits[-2]` on a too-short list). -/
def _genKeysBins (binlimits : List EFloat) : Option (List String) :=
  match binlimits.head?, binlimits.getLast? with
  | some b0, some blast =>
    let step1 : Option (List String × List EFloat) :=
      if ebeq b0 .ninf then
        match binlimits.tail.head? with
        | some m0 => some (["<" ++ efRepr m0], binlimits.tail)
        | none => none
      else some ([], binlimits)
    match step1 with
    | none => none
    | some (keys1, mid1) =>
      let mid2 := if ebeq blast .inf then mid1.dropLast else mid1
      match mid2.head? with
      | none => none
      | some lastbin =>
        let loopKeys := genKeysLoop lastbin mid2.tail
        let tailKey : Option (List String) :=
          if ebeq blast .inf then
            match binlimits.dropLast.getLast? with
            | some sndLast => some [efRepr sndLast ++ "+"]
            | none => none
          else some []
        match tailKey with
        | none => none
        | some tk => some (keys1 ++ loopKeys ++ tk ++ ["Uncertain"])
  | _, _ => none

/-- A dimensioned value: a unit together with either a numeric payload or the
not-a-number sentinel (`none`). -/
structure Quantity where
  unit : UnitT
  val : Option ℚ
deriving DecidableEq

/-- Modelled from the spec: an equation-engine formula (`equations.py` is not
under `src/`) declares its required inputs (the arity of `compute`), the
physically valid domain of those inputs, and its output unit
(spec section 4.5). -/
structure Formula where
  domain : List ℚ → Bool
  compute : List ℚ → ℚ
  outUnit : UnitT

/-- All payloads of a list of inputs, or `none` if any is the sentinel. -/
def allSome : List (Option ℚ) → Option (List ℚ)
  | [] => some []
  | none :: _ => none
  | some x :: xs => (allSome xs).map (fun l => x :: l)

/-- Modelled from the spec: a derived-quantity operation returns the
not-a-number sentinel in its declared output unit when a required input is
absent or the sentinel, or lies outside the physically valid domain; otherwise
it computes the value (spec section 4.5; `equations.py` is not under
`src/`). -/
def evalFormula (f : Formula) (inputs : List Quantity) : Quantity :=
  match allSome (inputs.map Quantity.val) with
  | none => ⟨f.outUnit, none⟩
  | some vs =>
    if f.domain vs then ⟨f.outUnit, some (f.compute vs)⟩ else ⟨f.outUnit, none⟩

/-- Modelled from the spec: planet density from mass and radius, with
non-positive mass or radius outside the physical domain (spec sections 4.3 and
4.5). The rational constant `355/113` stands in for `pi` in this model. -/
def calcDensity : Formula :=
  { domain := fun vs =>
      match vs with
      | [m, r] => decide (0 < m) && decide (0 < r)
      | _ => false,
    compute := fun vs =>
      match vs with
      | [m, r] => m / ((4 / 3) * (355 / 113) * r ^ 3)
      | _ => 0,
    outUnit := .gcm3 }


/-! ## Helper lemmas -/

theorem kind_buildSystem (e : Element) : (buildSystem e).kind = .System := rfl

theorem children_buildSystem (e : Element) :
    (buildSystem e).children
      = (findall .binary e).map buildBinary ++ (findall .star e).map buildStar := rfl

/-- The spec-side rendering of a stringified collection: the given strings
joined by `", "` in order. -/
def joinSep : List String → String
  | [] => ""
  | [s] => s
  | s :: t :: rest => s ++ ", " ++ joinSep (t :: rest)

theorem append_strAListTail (xs : List AObj) :
    ∀ x : String, x ++ strAListTail xs = joinSep (x :: xs.map reprA) := by
  induction xs with
  | nil => intro x; simp [strAListTail, joinSep]
  | cons y ys ih =>
    intro x
    calc x ++ strAListTail (y :: ys)
        = x ++ (", " ++ (reprA y ++ strAListTail ys)) := by
          simp [strAListTail, String.append_assoc]
      _ = (x ++ ", ") ++ (reprA y ++ strAListTail ys) := by
          rw [String.append_assoc]
      _ = (x ++ ", ") ++ joinSep (reprA y :: ys.map reprA) := by rw [ih]
      _ = joinSep (x :: (y :: ys).map reprA) := by
          simp [joinSep, String.append_assoc]

theorem allSome_eq_none_of_mem {l : List (Option ℚ)} (h : none ∈ l) :
    allSome l = none := by
  induction l with
  | nil => cases h
  | cons a tl ih =>
    cases a with
    | none => rfl
    | some x =>
      have h' : none ∈ tl := by
        rcases List.mem_cons.mp h with h1 | h1
        · cases h1
        · exact h1
      simp [allSome, ih h']

theorem findStarAncestor_isSome_iff (chain : List AObj) :
    (∃ a ∈ chain, a.kind = .Star) ↔ (findStarAncestor chain).isSome = true := by
  induction chain with
  | nil => simp [findStarAncestor]
  | cons a rest ih =>
    by_cases ha : a.kind = .Star
    · simp [findStarAncestor, ha]
    · simp only [findStarAncestor, ha, if_false, List.mem_cons]
      constructor
      · rintro ⟨b, hb | hb, hk⟩
        · exact absurd (hb ▸ hk) ha
        · exact ih.mp ⟨b, hb, hk⟩
      · intro h
        rcases ih.mpr h with ⟨b, hb, hk⟩
        exact ⟨b, Or.inr hb, hk⟩

/-! ## C6 -/

/-- C6: for every System node constructed by the hierarchy builder, no direct
child has kind Planet: every direct child is a Star or a Binary. -/
theorem c6_system_children_never_planet (e : Element) (c : AObj)
    (hc : c ∈ (buildSystem e).children) : c.kind ≠ .Planet ∧ (c.kind = .Binary ∨ c.kind = .Star) := by
  rw [children_buildSystem] at hc
  rcases List.mem_append.mp hc with h | h
  · rcases List.mem_map.mp h with ⟨x, _, rfl⟩
    rw [kind_buildBinary]
    exact ⟨by simp, Or.inl rfl⟩
  · rcases List.mem_map.mp h with ⟨x, _, rfl⟩
    rw [kind_buildStar]
    exact ⟨by simp, Or.inr rfl⟩

/-- Witness for C6 at the System 4 record: its only child, Binary 4AB, is not
a Planet. -/
theorem c6_witness :
    (buildBinary (.mk .binary "Binary 4AB"
        [.mk .star "Star 4A" [.mk .planet "Planet 4A b" []], .mk .star "Star 4B" []])).kind
      ≠ .Planet := by
  refine (c6_system_children_never_planet sys4El _ ?_).1
  simp [children_buildSystem, sys4El, findall, Element.children, Element.tag]

/-! ## C7 -/

/-- C7: the canonical string form of an AstroObject is exactly
`<Kind>('<name>')`, and stringifying a `children` collection renders each
child in this form, comma-separated in the collection's stored order; checked
also on the concrete System 1 and System 3 records of the test corpus. -/
theorem c7_canonical_string_form :
    (∀ o : AObj, reprA o = kindStr o.kind ++ "(" ++ pyQuote ++ o.name ++ pyQuote ++ ")")
    ∧ (∀ l : List AObj, strAList l = "[" ++ joinSep (l.map reprA) ++ "]")
    ∧ strAList (buildSystem sys1El).children = "[Star(\x27Star 1\x27)]"
    ∧ strAList ((buildSystem sys3El).children.headD (AObj.mk .System "" [])).children
        = "[Planet(\x27Planet 3 b\x27), Planet(\x27Planet 3 c\x27)]" := by
  refine ⟨fun o => rfl, fun l => ?_, ?_, ?_⟩
  · cases l with
    | nil => rfl
    | cons x xs =>
      calc strAList (x :: xs)
          = "[" ++ (reprA x ++ strAListTail xs) ++ "]" := by
            simp [strAList, String.append_assoc]
        _ = "[" ++ joinSep ((x :: xs).map reprA) ++ "]" := by
            rw [append_strAListTail]
            rfl
  · simp [children_buildSystem, sys1El, findall, Element.children, Element.tag,
      buildStar, buildPlanet, strAList, strAListTail, reprA, kindStr, AObj.kind,
      AObj.name, Element.name, pyQuote]
  · have h1 : (buildSystem sys3El).children
        = [buildStar (.mk .star "Star 3"
            [.mk .planet "Planet 3 b" [], .mk .planet "Planet 3 c" []])] := by
      simp [children_buildSystem, sys3El, findall, Element.children, Element.tag]
    rw [h1]
    simp [buildStar, findall, Element.children, Element.tag, buildPlanet,
      AObj.children, strAList, strAListTail, reprA, kindStr, AObj.kind, AObj.name,
      Element.name, pyQuote]

/-! ## C3 -/

/-- C3: for a non-empty object list, a mixture of two different kinds makes
`_getInputObjectTypes` raise `TypeError`; a homogeneous list succeeds and
records the common kind as the list's object type. -/
theorem c3_homogeneous_object_types (l : List Kind) (hne : l ≠ []) :
    ((∃ a ∈ l, ∃ b ∈ l, a ≠ b) → _getInputObjectTypes l = .error .typeError)
    ∧ ((∀ a ∈ l, ∀ b ∈ l, a = b) →
        ∃ k, _getInputObjectTypes l = .ok k ∧ ∀ a ∈ l, a = k) := by
  cases l with
  | nil => exact absurd rfl hne
  | cons f rest =>
    constructor
    · rintro ⟨a, ha, b, hb, hab⟩
      have hall : ¬ (f :: rest).all (fun x => decide (f = x)) = true := by
        intro h
        have h' := List.all_eq_true.mp h
        have h1 : f = a := of_decide_eq_true (h' a ha)
        have h2 : f = b := of_decide_eq_true (h' b hb)
        exact hab (h1 ▸ h2)
      simp only [_getInputObjectTypes, if_neg hall]
    · intro h
      refine ⟨f, ?_, fun a ha => h a ha f (List.mem_cons_self f rest)⟩
      have hall : (f :: rest).all (fun x => decide (f = x)) = true := by
        refine List.all_eq_true.mpr fun x hx => decide_eq_true ?_
        exact h f (List.mem_cons_self f rest) x hx
      simp only [_getInputObjectTypes, if_pos hall]

/-- Witness for C3: a Planet/Star mixture raises `TypeError`. -/
theorem c3_witness : _getInputObjectTypes [.Planet, .Star] = .error .typeError :=
  (c3_homogeneous_object_types [.Planet, .Star] (by decide)).1 (by decide)

/-! ## C4 -/

/-- C4: over a Planet list, each accepted path starting with `star.` resolves
to the star table's entry for the stripped path, and each accepted plain path
to the planet table's entry unchanged (no planet-table key contains `star.`,
so the substring test in the source coincides with a prefix test on accepted
paths); over a Star list the star table is always consulted; any other object
kind raises `TypeError`. -/
theorem c4_label_unit_lookup :
    (∀ kv ∈ _planetPars, strStartsWith kv.1 "star." = false
        ∧ _getParLabelAndUnit .Planet kv.1 = .ok kv.2)
    ∧ (∀ kv ∈ _starPars, strStartsWith ("star." ++ kv.1) "star." = true
        ∧ _getParLabelAndUnit .Planet ("star." ++ kv.1) = .ok kv.2)
    ∧ (∀ kv ∈ _starPars, _getParLabelAndUnit .Star kv.1 = .ok kv.2)
    ∧ (∀ param : String, _getParLabelAndUnit .Binary param = .error .typeError
        ∧ _getParLabelAndUnit .System param = .error .typeError) := by
  refine ⟨?_, ?_, ?_, ?_⟩
  · intro kv hkv
    fin_cases hkv <;> exact ⟨rfl, rfl⟩
  · intro kv hkv
    fin_cases hkv <;> exact ⟨rfl, rfl⟩
  · intro kv hkv
    fin_cases hkv <;> rfl
  · intro param
    exact ⟨rfl, rfl⟩

/-- Witness for C4 at the `star.magV` and `R` paths over Planets. -/
theorem c4_witness :
    _getParLabelAndUnit .Planet ("star." ++ "magV") = .ok ("V Magnitude", .noneUnit)
    ∧ _getParLabelAndUnit .Planet "R" = .ok ("Planet Radius", .R_j) :=
  ⟨(c4_label_unit_lookup.2.1 ("magV", "V Magnitude", .noneUnit) (by decide)).2,
   (c4_label_unit_lookup.1 ("R", "Planet Radius", .R_j) (by decide)).2⟩

/-! ## C5 -/

/-- C5: a derived-quantity operation whose required input is absent (the
sentinel) or outside its physically valid domain returns the not-a-number
sentinel in its declared output unit instead of raising; the sentinel
propagates (a numeric result is only ever produced from fully numeric
inputs). -/
theorem c5_sentinel_propagation (f : Formula) (inputs : List Quantity) :
    ((∃ q ∈ inputs, q.val = none) → evalFormula f inputs = ⟨f.outUnit, none⟩)
    ∧ (evalFormula f inputs).unit = f.outUnit
    ∧ (∀ vs, allSome (inputs.map Quantity.val) = some vs → f.domain vs = false →
        evalFormula f inputs = ⟨f.outUnit, none⟩)
    ∧ ((evalFormula f inputs).val ≠ none → ∀ q ∈ inputs, q.val ≠ none) := by
  refine ⟨?_, ?_, ?_, ?_⟩
  · rintro ⟨q, hq, hv⟩
    have hmem : none ∈ inputs.map Quantity.val := by
      exact List.mem_map.mpr ⟨q, hq, hv⟩
    simp [evalFormula, allSome_eq_none_of_mem hmem]
  · unfold evalFormula
    cases allSome (inputs.map Quantity.val) with
    | none => rfl
    | some vs =>
      by_cases hd : f.domain vs
      · simp [hd]
      · simp [hd]
  · intro vs hvs hd
    simp [evalFormula, hvs, hd]
  · intro hval q hq hv
    have hmem : none ∈ inputs.map Quantity.val := List.mem_map.mpr ⟨q, hq, hv⟩
    have := allSome_eq_none_of_mem hmem
    simp [evalFormula, this] at hval

/-- Witness for C5: density with a missing mass input is the sentinel in
`g/cm3`. -/
theorem c5_witness :
    evalFormula calcDensity [⟨.M_j, none⟩, ⟨.R_j, some 1⟩] = ⟨.gcm3, none⟩ :=
  (c5_sentinel_propagation calcDensity [⟨.M_j, none⟩, ⟨.R_j, some 1⟩]).1
    ⟨⟨.M_j, none⟩, by simp, rfl⟩

/-! ## C1 -/

theorem map_name_map_buildBinary (xs : List Element) :
    ((xs.map buildBinary).map AObj.name) = xs.map Element.name := by
  rw [List.map_map]
  exact List.map_congr_left fun x _ => name_buildBinary x

theorem map_name_map_buildStar (xs : List Element) :
    ((xs.map buildStar).map AObj.name) = xs.map Element.name := by
  rw [List.map_map]
  exact List.map_congr_left fun x _ => name_buildStar x

theorem map_name_map_buildPlanet (xs : List Element) :
    ((xs.map buildPlanet).map AObj.name) = xs.map Element.name := by
  rw [List.map_map]
  exact List.map_congr_left fun x _ => rfl

theorem filter_kind_map_buildBinary (k : Kind) (xs : List Element) :
    (xs.map buildBinary).filter (fun c => decide (c.kind = k))
      = if k = .Binary then xs.map buildBinary else [] := by
  by_cases hk : k = .Binary
  · subst hk
    simp only [if_pos rfl]
    exact List.filter_eq_self.mpr fun a ha => by
      rcases List.mem_map.mp ha with ⟨x, _, rfl⟩
      simp [kind_buildBinary]
  · rw [if_neg hk]
    exact List.filter_eq_nil_iff.mpr fun a ha => by
      rcases List.mem_map.mp ha with ⟨x, _, rfl⟩
      simp [kind_buildBinary]
      exact fun h => hk h.symm

theorem filter_kind_map_buildStar (k : Kind) (xs : List Element) :
    (xs.map buildStar).filter (fun c => decide (c.kind = k))
      = if k = .Star then xs.map buildStar else [] := by
  by_cases hk : k = .Star
  · subst hk
    simp only [if_pos rfl]
    exact List.filter_eq_self.mpr fun a ha => by
      rcases List.mem_map.mp ha with ⟨x, _, rfl⟩
      simp [kind_buildStar]
  · rw [if_neg hk]
    exact List.filter_eq_nil_iff.mpr fun a ha => by
      rcases List.mem_map.mp ha with ⟨x, _, rfl⟩
      simp [kind_buildStar]
      exact fun h => hk h.symm

theorem filter_kind_map_buildPlanet (k : Kind) (xs : List Element) :
    (xs.map buildPlanet).filter (fun c => decide (c.kind = k))
      = if k = .Planet then xs.map buildPlanet else [] := by
  by_cases hk : k = .Planet
  · subst hk
    simp only [if_pos rfl]
    exact List.filter_eq_self.mpr fun a ha => by
      rcases List.mem_map.mp ha with ⟨x, _, rfl⟩
      simp [buildPlanet, AObj.kind]
  · rw [if_neg hk]
    exact List.filter_eq_nil_iff.mpr fun a ha => by
      rcases List.mem_map.mp ha with ⟨x, _, rfl⟩
      simp [buildPlanet, AObj.kind]
      exact fun h => hk h.symm

/-- C1 counterexample: in the System 5 record the children of `Binary 5AB`
appear in document order `Star 5A`, `Binary 5B-AB`, but the constructed node's
`children` (and its string form, the one asserted by
`test_correct_double_binary_star_planet_system`) list `Binary 5B-AB` first:
sibling document order across kinds is not preserved. -/
theorem c1_counterexample :
    binary5El.children.map Element.name = ["Star 5A", "Binary 5B-AB"]
    ∧ ((buildSystem sys5El).children.headD (AObj.mk .System "" [])).children.map AObj.name
        = ["Binary 5B-AB", "Star 5A"]
    ∧ strAList ((buildSystem sys5El).children.headD (AObj.mk .System "" [])).children
        = "[Binary(\x27Binary 5B-AB\x27), Star(\x27Star 5A\x27)]"
    ∧ (["Star 5A", "Binary 5B-AB"] ≠ ["Binary 5B-AB", "Star 5A"]) := by
  have h1 : (buildSystem sys5El).children = [buildBinary binary5El] := by
    simp [children_buildSystem, sys5El, binary5El, findall, Element.children, Element.tag]
  have h2 : (buildBinary binary5El).children
      = [buildBinary (.mk .binary "Binary 5B-AB"
          [.mk .star "Star 5B-A" [.mk .planet "Planet 5B-A b" []],
           .mk .star "Star 5B-B" []]),
         buildStar (.mk .star "Star 5A" [])] := by
    rw [buildBinary_eq]
    simp [binary5El, findall, Element.children, Element.tag, AObj.children]
  refine ⟨rfl, ?_, ?_, by decide⟩
  · rw [h1]
    simp [h2, name_buildBinary, name_buildStar, Element.name]
  · rw [h1]
    simp [h2, strAList, strAListTail, reprA, kind_buildBinary, kind_buildStar,
      name_buildBinary, name_buildStar, kindStr, Element.name, pyQuote]

/-- C1 amended: construction groups each node's children by kind (for a System
the nested binaries then the stars; for a Binary the nested binaries, stars,
then planets) and within each kind the children appear exactly in the document
order of the corresponding source elements; document order is not preserved
across kinds. -/
theorem c1_per_kind_document_order (e : Element) :
    ((buildSystem e).children.map AObj.name
        = (findall .binary e ++ findall .star e).map Element.name)
    ∧ (((buildSystem e).children.filter (fun c => decide (c.kind = .Binary))).map AObj.name
        = (findall .binary e).map Element.name)
    ∧ (((buildSystem e).children.filter (fun c => decide (c.kind = .Star))).map AObj.name
        = (findall .star e).map Element.name)
    ∧ ((buildBinary e).children.map AObj.name
        = ((findall .binary e ++ findall .star e) ++ findall .planet e).map Element.name)
    ∧ (((buildBinary e).children.filter (fun c => decide (c.kind = .Planet))).map AObj.name
        = (findall .planet e).map Element.name)
    ∧ ((buildStar e).children.map AObj.name = (findall .planet e).map Element.name) := by
  have hbc : (buildBinary e).children
      = (findall .binary e).map buildBinary ++ (findall .star e).map buildStar
        ++ (findall .planet e).map buildPlanet := by
    rw [buildBinary_eq]
    rfl
  refine ⟨?_, ?_, ?_, ?_, ?_, ?_⟩
  · rw [children_buildSystem]
    simp only [List.map_append]
    rw [map_name_map_buildBinary, map_name_map_buildStar]
  · rw [children_buildSystem, List.filter_append,
      filter_kind_map_buildBinary, filter_kind_map_buildStar]
    simp [map_name_map_buildBinary, name_buildBinary]
  · rw [children_buildSystem, List.filter_append,
      filter_kind_map_buildBinary, filter_kind_map_buildStar]
    simp [map_name_map_buildStar, name_buildStar]
  · rw [hbc]
    simp only [List.map_append]
    rw [map_name_map_buildBinary, map_name_map_buildStar, map_name_map_buildPlanet]
  · rw [hbc, List.filter_append, List.filter_append,
      filter_kind_map_buildBinary, filter_kind_map_buildStar, filter_kind_map_buildPlanet]
    simp [map_name_map_buildPlanet, name_buildPlanet]
  · show ((findall .planet e).map buildPlanet).map AObj.name = _
    rw [map_name_map_buildPlanet]

/-! ## C2 -/

/-- C2: for a Planet node of a built tree, resolving a star-relative path
against it succeeds (against the nearest Star ancestor, found by walking the
parent links collected in its ancestor chain) if and only if some ancestor is
a Star; when no Star ancestor exists the resolution raises `HierarchyError`
rather than returning a value. -/
theorem c2_star_relative_resolution (t : AObj) (pos : List Nat) (p : AObj)
    (chain : List AObj) (path : String)
    (hnode : nodeAt t pos = some p) (hplanet : p.kind = .Planet)
    (hchain : ancestorsAt t pos = some chain) :
    ((∃ a ∈ chain, a.kind = .Star) ↔ ∃ s, resolveStarRelative chain path = .ok s)
    ∧ ((∀ a ∈ chain, a.kind ≠ .Star) →
        resolveStarRelative chain path = .error .noStarAncestor) := by
  have hiff := findStarAncestor_isSome_iff chain
  constructor
  · rw [hiff]
    cases h : findStarAncestor chain with
    | some s =>
      constructor
      · intro _
        exact ⟨s, by simp [resolveStarRelative, h]⟩
      · intro _
        rfl
    | none =>
      constructor
      · intro hfalse
        simp at hfalse
      · rintro ⟨s, hs⟩
        simp [resolveStarRelative, h] at hs
  · intro hnone
    have hns : ¬ ∃ a ∈ chain, a.kind = .Star := by
      rintro ⟨a, ha, hk⟩
      exact hnone a ha hk
    rw [hiff] at hns
    cases h : findStarAncestor chain with
    | some s =>
      rw [h] at hns
      simp at hns
    | none =>
      simp [resolveStarRelative, h]

/-- Witness for C2 at the System 6 record: `Planet 6AB b` is parented directly
by `Binary 6AB`, its ancestor chain holds no Star, and star-relative
resolution raises `HierarchyError`. -/
theorem c2_witness :
    resolveStarRelative [buildBinary binary6El, buildSystem sys6El] "star.magV"
      = .error .noStarAncestor := by
  have h1 : (buildSystem sys6El).children = [buildBinary binary6El] := by
    simp [children_buildSystem, sys6El, binary6El, findall, Element.children, Element.tag]
  have h2 : (buildBinary binary6El).children
      = [buildStar (.mk .star "Star 6A" []), buildStar (.mk .star "Star 6B" []),
         buildPlanet (.mk .planet "Planet 6AB b" [])] := by
    rw [buildBinary_eq]
    simp [binary6El, findall, Element.children, Element.tag, AObj.children]
  refine (c2_star_relative_resolution (buildSystem sys6El) [0, 2]
      (AObj.mk .Planet "Planet 6AB b" [])
      [buildBinary binary6El, buildSystem sys6El] "star.magV" ?_ rfl ?_).2 ?_
  · simp [nodeAt, h1, h2, buildPlanet, Element.name]
  · simp [ancestorsAt, h1, h2]
  · intro a ha
    rcases List.mem_cons.mp ha with rfl | ha2
    · rw [kind_buildBinary]
      simp
    · rcases List.mem_cons.mp ha2 with rfl | h3
      · rw [kind_buildSystem]
        simp
      · cases h3

/-! ## C8 -/

theorem dictLookup_loadDatabase :
    ∀ (files : List Element), (files.map Element.name).Nodup →
      ∀ f ∈ files,
        dictLookup ((files.map buildSystem).map (fun s => (s.name, s)))
            (buildSystem f).name
          = some (buildSystem f) := by
  intro files
  induction files with
  | nil =>
    intro _ f hf
    cases hf
  | cons g gs ih =>
    intro hnd f hf
    have hnd' : g.name ∉ gs.map Element.name ∧ (gs.map Element.name).Nodup := by
      rw [List.map_cons, List.nodup_cons] at hnd
      exact hnd
    simp only [List.map_cons]
    unfold dictLookup
    rw [List.filter_cons]
    rcases List.mem_cons.mp hf with rfl | hf2
    · have hrest : ((gs.map buildSystem).map (fun s => (s.name, s))).filter
          (fun kv => decide (kv.1 = (buildSystem f).name)) = [] := by
        refine List.filter_eq_nil_iff.mpr fun kv hkv => ?_
        rcases List.mem_map.mp hkv with ⟨s, hs, rfl⟩
        rcases List.mem_map.mp hs with ⟨h, hh, rfl⟩
        simp only [name_buildSystem, decide_eq_true_eq]
        intro heq
        exact hnd'.1 (heq ▸ List.mem_map_of_mem Element.name hh)
      have hcond : decide ((((buildSystem f).name, buildSystem f) : String × AObj).1
          = (buildSystem f).name) = true := by simp
      rw [if_pos hcond, hrest]
      rfl
    · have hcond : decide ((((buildSystem g).name, buildSystem g) : String × AObj).1
          = (buildSystem f).name) = false := by
        simp only [name_buildSystem, decide_eq_false_iff_not]
        intro heq
        exact hnd'.1 (heq ▸ List.mem_map_of_mem Element.name hf2)
      rw [hcond]
      simp only [Bool.false_eq_true, if_false]
      have := ih hnd'.2 f hf2
      unfold dictLookup at this
      exact this

/-- C8: loading n well-formed one-system files yields exactly n systems, and
(for distinct system names, duplicate-name behaviour being unspecified) the
name index maps each top-level System's name to that System object. -/
theorem c8_load_count_and_index (files : List Element)
    (hnd : (files.map Element.name).Nodup) :
    (loadDatabase files).systems.length = files.length
    ∧ ∀ s ∈ (loadDatabase files).systems,
        dictLookup (loadDatabase files).systemDict s.name = some s := by
  constructor
  · simp [loadDatabase]
  · intro s hs
    have hs' : s ∈ files.map buildSystem := by simpa [loadDatabase] using hs
    rcases List.mem_map.mp hs' with ⟨f, hf, rfl⟩
    simpa [loadDatabase] using dictLookup_loadDatabase files hnd f hf

/-- Witness for C8 over the six-file test corpus: six systems are loaded and
`System 5` is indexed to its System object. -/
theorem c8_witness :
    (loadDatabase testFiles).systems.length = 6
    ∧ dictLookup (loadDatabase testFiles).systemDict (buildSystem sys5El).name
        = some (buildSystem sys5El) := by
  have h := c8_load_count_and_index testFiles (by decide)
  refine ⟨h.1, h.2 (buildSystem sys5El) ?_⟩
  have : sys5El ∈ testFiles := by simp [testFiles]
  simpa [loadDatabase] using List.mem_map_of_mem buildSystem this

/-! ## EFloat comparison lemmas -/

theorem eq_of_ebeq {a b : EFloat} (h : ebeq a b = true) : a = b := by
  cases a <;> cases b <;> simp_all [ebeq]

theorem ebeq_self {a : EFloat} (h : isnan a = false) : ebeq a a = true := by
  cases a <;> simp_all [ebeq, isnan]

theorem elt_irrefl (a : EFloat) : elt a a = false := by
  cases a <;> simp [elt]

theorem elt_trans {a b c : EFloat} (h1 : elt a b = true) (h2 : elt b c = true) :
    elt a c = true := by
  cases a <;> cases b <;> cases c <;> simp_all [elt] <;> linarith

theorem elt_asymm {a b : EFloat} (h : elt a b = true) : elt b a = false := by
  cases a <;> cases b <;> simp_all [elt] <;> linarith

theorem not_nan_of_elt_left {a b : EFloat} (h : elt a b = true) : isnan a = false := by
  cases a <;> simp_all [elt, isnan]

theorem not_nan_of_elt_right {a b : EFloat} (h : elt a b = true) : isnan b = false := by
  cases a <;> cases b <;> simp_all [elt, isnan]

theorem not_nan_of_ebeq_left {a b : EFloat} (h : ebeq a b = true) : isnan a = false := by
  cases a <;> cases b <;> simp_all [ebeq, isnan]

theorem not_nan_of_ele_left {a b : EFloat} (h : ele a b = true) : isnan a = false := by
  have hor : elt a b = true ∨ ebeq a b = true := by simpa [ele] using h
  rcases hor with h1 | h1
  · exact not_nan_of_elt_left h1
  · exact not_nan_of_ebeq_left h1

theorem ele_elt_false {a b : EFloat} (h : ele a b = true) : elt b a = false := by
  have hor : elt a b = true ∨ ebeq a b = true := by simpa [ele] using h
  rcases hor with h1 | h1
  · exact elt_asymm h1
  · rw [eq_of_ebeq h1]
    exact elt_irrefl b

theorem elt_of_elt_of_ele {a b c : EFloat} (h1 : elt a b = true) (h2 : ele b c = true) :
    elt a c = true := by
  have hor : elt b c = true ∨ ebeq b c = true := by simpa [ele] using h2
  rcases hor with h3 | h3
  · exact elt_trans h1 h3
  · rw [← eq_of_ebeq h3]
    exact h1

theorem elt_of_ele_of_elt {a b c : EFloat} (h1 : ele a b = true) (h2 : elt b c = true) :
    elt a c = true := by
  have hor : elt a b = true ∨ ebeq a b = true := by simpa [ele] using h1
  rcases hor with h3 | h3
  · exact elt_trans h3 h2
  · rw [eq_of_ebeq h3]
    exact h2

theorem ele_trans {a b c : EFloat} (h1 : ele a b = true) (h2 : ele b c = true) :
    ele a c = true := by
  have hor : elt a b = true ∨ ebeq a b = true := by simpa [ele] using h1
  rcases hor with h3 | h3
  · have := elt_of_elt_of_ele h3 h2
    simp [ele, this]
  · rw [eq_of_ebeq h3]
    exact h2

theorem ele_of_elt {a b : EFloat} (h : elt a b = true) : ele a b = true := by
  simp [ele, h]

theorem ebeq_ninf_iff (a : EFloat) : ebeq a .ninf = true ↔ a = .ninf := by
  cases a <;> simp [ebeq]

theorem ebeq_inf_iff (a : EFloat) : ebeq a .inf = true ↔ a = .inf := by
  cases a <;> simp [ebeq]

theorem sorted_get_lt {ls : List EFloat}
    (hsort : List.Pairwise (fun a b => elt a b = true) ls)
    {i j : Nat} (hij : i < j) (hj : j < ls.length) :
    elt (ls.get ⟨i, Nat.lt_trans hij hj⟩) (ls.get ⟨j, hj⟩) = true :=
  List.pairwise_iff_get.mp hsort ⟨i, Nat.lt_trans hij hj⟩ ⟨j, hj⟩ hij

theorem getLastD_eq_get {α : Type} (l : List α) (d : α) (h : l ≠ []) :
    l.getLastD d = l.get ⟨l.length - 1, by
      cases l with
      | nil => exact absurd rfl h
      | cons a tl => simp⟩ := by
  rw [List.getLastD_eq_getLast?, List.getLast?_eq_getElem?]
  cases l with
  | nil => exact absurd rfl h
  | cons a tl =>
    rw [List.getElem?_eq_getElem (by simp)]
    rfl

theorem findKeyIndex_eq_none (v : EFloat) :
    ∀ (ls : List EFloat), (∀ m (hm : m < ls.length), elt v (ls.get ⟨m, hm⟩) = false) →
      ∀ start, findKeyIndex v ls start = none := by
  intro ls
  induction ls with
  | nil =>
    intro _ _
    rfl
  | cons a tl ih =>
    intro h start
    have h0 : elt v a = false := h 0 (by simp)
    simp only [findKeyIndex, h0, Bool.false_eq_true, if_false]
    exact ih (fun m hm => by simpa using h (m + 1) (by simpa using Nat.succ_lt_succ hm)) (start + 1)

theorem findKeyIndex_eq_some (v : EFloat) :
    ∀ (ls : List EFloat) (k : Nat) (hk : k < ls.length),
      elt v (ls.get ⟨k, hk⟩) = true →
      (∀ m (hm : m < k), elt v (ls.get ⟨m, Nat.lt_trans hm hk⟩) = false) →
      ∀ start, findKeyIndex v ls start = some (start + k) := by
  intro ls
  induction ls with
  | nil =>
    intro k hk
    exact absurd hk (by simp)
  | cons a tl ih =>
    intro k hk hkt hbefore start
    cases k with
    | zero =>
      have h0 : elt v a = true := by simpa using hkt
      simp [findKeyIndex, h0]
    | succ j =>
      have h0 : elt v a = false := by simpa using hbefore 0 (Nat.succ_pos j)
      simp only [findKeyIndex, h0, Bool.false_eq_true, if_false]
      have hrec := ih j (by simpa using Nat.lt_of_succ_lt_succ hk) (by simpa using hkt)
        (fun m hm => by simpa using hbefore (m + 1) (Nat.succ_lt_succ hm)) (start + 1)
      rw [hrec]
      congr 1
      omega

theorem genKeysLoop_length (l : List EFloat) : ∀ lb, (genKeysLoop lb l).length = l.length := by
  induction l with
  | nil =>
    intro _
    rfl
  | cons b bs ih =>
    intro lb
    simp [genKeysLoop, ih]

/-! ## C9 -/

theorem sortValueIntoGroup_run (groupKeys : List String) (l0 : EFloat) (tl : List EFloat)
    (v : EFloat) (hlen : ¬ (groupKeys.length + 1 ≠ (l0 :: tl).length))
    (hnan : isnan v = false) :
    sortValueIntoGroup groupKeys (l0 :: tl) v
      = (match (if ebeq v l0 then some 1
          else if ebeq v ((l0 :: tl).getLastD .nan) then some ((l0 :: tl).length - 1)
          else findKeyIndex v (l0 :: tl) 0 : Option Nat) with
        | some 0 => .error .belowLimits
        | none => .error .aboveLimits
        | some (k + 1) =>
          match groupKeys[k]? with
          | some key => (.ok key : Except SortError String)
          | none => .error .indexError) := by
  unfold sortValueIntoGroup
  rw [if_neg hlen, if_neg (by simp [hnan])]
  rfl

/-- IEEE `==` implies `<=`. -/
theorem ele_of_ebeq {a b : EFloat} (h : ebeq a b = true) : ele a b = true := by
  simp [ele, h]

/-- C9: under the documented preconditions (strictly increasing limits and
`len(groupKeys) == len(groupLimits) - 1`), `sortValueIntoGroup` returns
`"Uncertain"` for a NaN value; returns `groupKeys[i]` for a value `v` with
`groupLimits[i] <= v < groupLimits[i+1]` (which includes the boundary case
`v == groupLimits[0]`, yielding the first key); returns the last key for
`v == groupLimits[-1]`; raises `BelowLimitsError` for `v` strictly below the
first limit and `AboveLimitsError` for `v` strictly above the last; and raises
`ValueError` whenever the key/limit length relation does not hold. -/
theorem c9_sortValueIntoGroup_spec (groupKeys : List String) (groupLimits : List EFloat)
    (v : EFloat)
    (hlen : groupKeys.length + 1 = groupLimits.length)
    (hsort : List.Pairwise (fun a b => elt a b = true) groupLimits) :
    (∀ (ks : List String) (ls : List EFloat) (w : EFloat),
        ks.length + 1 ≠ ls.length → sortValueIntoGroup ks ls w = .error .valueError)
    ∧ (isnan v = true → sortValueIntoGroup groupKeys groupLimits v = .ok "Uncertain")
    ∧ (∀ i, ∀ hi : i + 1 < groupLimits.length,
        ele (groupLimits.get ⟨i, by omega⟩) v = true →
        elt v (groupLimits.get ⟨i + 1, hi⟩) = true →
        sortValueIntoGroup groupKeys groupLimits v = .ok (groupKeys.get ⟨i, by omega⟩))
    ∧ (groupKeys ≠ [] → ebeq v (groupLimits.getLastD .nan) = true →
        sortValueIntoGroup groupKeys groupLimits v = .ok (groupKeys.getLastD ""))
    ∧ (elt v (groupLimits.headD .nan) = true →
        sortValueIntoGroup groupKeys groupLimits v = .error .belowLimits)
    ∧ (elt (groupLimits.getLastD .nan) v = true →
        sortValueIntoGroup groupKeys groupLimits v = .error .aboveLimits) := by
  obtain ⟨l0, tl, rfl⟩ : ∃ a t, groupLimits = a :: t := by
    cases groupLimits with
    | nil => simp at hlen
    | cons a t => exact ⟨a, t, rfl⟩
  have hlen' : ¬ (groupKeys.length + 1 ≠ (l0 :: tl).length) := by omega
  have hlastD : (l0 :: tl).getLastD EFloat.nan
      = (l0 :: tl).get ⟨(l0 :: tl).length - 1, by simp⟩ :=
    getLastD_eq_get _ _ (by simp)
  refine ⟨?_, ?_, ?_, ?_, ?_, ?_⟩
  · intro ks ls w hne
    unfold sortValueIntoGroup
    rw [if_pos hne]
  · intro hnan
    unfold sortValueIntoGroup
    rw [if_neg hlen', if_pos hnan]
  · intro i hi h1 h2
    have hnan : isnan v = false := not_nan_of_elt_left h2
    have hik : i < groupKeys.length := by omega
    rw [sortValueIntoGroup_run groupKeys l0 tl v hlen' hnan]
    by_cases hb0 : ebeq v l0 = true
    · have hveq : v = l0 := eq_of_ebeq hb0
      have hi0 : i = 0 := by
        by_contra h0
        have hpos : 0 < i := Nat.pos_of_ne_zero h0
        have hlt : elt ((l0 :: tl).get ⟨0, by simp⟩) ((l0 :: tl).get ⟨i, by omega⟩) = true :=
          sorted_get_lt hsort hpos (by omega)
        have hlt' : elt v ((l0 :: tl).get ⟨i, by omega⟩) = true := by
          rw [hveq]
          exact hlt
        have hvv : elt v v = true := elt_of_elt_of_ele hlt' h1
        rw [elt_irrefl] at hvv
        exact Bool.false_ne_true hvv
      subst hi0
      rw [if_pos hb0]
      simp [List.getElem?_eq_getElem hik]
    · have hblast : ¬ (ebeq v ((l0 :: tl).getLastD .nan) = true) := by
        intro hb
        have hveq := eq_of_ebeq hb
        have hele : ele ((l0 :: tl).get ⟨i + 1, hi⟩) ((l0 :: tl).getLastD .nan) = true := by
          rw [hlastD]
          rcases Nat.lt_or_ge (i + 1) ((l0 :: tl).length - 1) with hlt | hge
          · exact ele_of_elt (sorted_get_lt hsort hlt (by omega))
          · have hieq : i + 1 = (l0 :: tl).length - 1 := by omega
            have hgg : (l0 :: tl).get ⟨i + 1, hi⟩
                = (l0 :: tl).get ⟨(l0 :: tl).length - 1, by simp⟩ := by
              congr 1
              exact Fin.ext hieq
            have hnn : isnan ((l0 :: tl).get ⟨i + 1, hi⟩) = false := by
              rw [hgg, ← hlastD, ← hveq]
              exact hnan
            rw [← hgg]
            exact ele_of_ebeq (ebeq_self hnn)
        have hvv : elt v v = true := by
          have h3 : elt v ((l0 :: tl).getLastD .nan) = true := elt_of_elt_of_ele h2 hele
          rw [← hveq] at h3
          exact h3
        rw [elt_irrefl] at hvv
        exact Bool.false_ne_true hvv
      rw [if_neg hb0, if_neg hblast]
      have hfki : findKeyIndex v (l0 :: tl) 0 = some (0 + (i + 1)) := by
        refine findKeyIndex_eq_some v (l0 :: tl) (i + 1) hi h2 ?_ 0
        intro m hm
        have hmle : m ≤ i := Nat.lt_succ_iff.mp hm
        have hele : ele ((l0 :: tl).get ⟨m, by omega⟩) v = true := by
          rcases Nat.lt_or_eq_of_le hmle with hlt | heq
          · have hs := sorted_get_lt hsort hlt (show i < (l0 :: tl).length by omega)
            exact ele_trans (ele_of_elt hs) h1
          · subst heq
            exact h1
        exact ele_elt_false hele
      rw [hfki]
      simp only [Nat.zero_add]
      simp [List.getElem?_eq_getElem hik]
  · intro hkne hvl
    have hnan : isnan v = false := not_nan_of_ebeq_left hvl
    have hk1 : 1 ≤ groupKeys.length := by
      cases groupKeys with
      | nil => exact absurd rfl hkne
      | cons _ _ => simp
    have hb0 : ¬ (ebeq v l0 = true) := by
      intro hb
      have h1 : v = l0 := eq_of_ebeq hb
      have h2 : v = (l0 :: tl).getLastD .nan := eq_of_ebeq hvl
      have hlt : elt ((l0 :: tl).get ⟨0, by simp⟩)
          ((l0 :: tl).get ⟨(l0 :: tl).length - 1, by simp⟩) = true :=
        sorted_get_lt hsort (by omega) (by simp)
      rw [← hlastD] at hlt
      have hlt' : elt l0 ((l0 :: tl).getLastD .nan) = true := hlt
      have h12 : l0 = (l0 :: tl).getLastD .nan := h1.symm.trans h2
      rw [← h12] at hlt'
      rw [elt_irrefl] at hlt'
      exact Bool.false_ne_true hlt'
    rw [sortValueIntoGroup_run groupKeys l0 tl v hlen' hnan, if_neg hb0, if_pos hvl]
    obtain ⟨m, hm⟩ : ∃ m, (l0 :: tl).length - 1 = m + 1 := ⟨(l0 :: tl).length - 2, by omega⟩
    rw [hm]
    have hmk : m < groupKeys.length := by omega
    simp only [List.getElem?_eq_getElem hmk]
    have hkl : groupKeys.getLastD "" = groupKeys.get ⟨groupKeys.length - 1, by omega⟩ :=
      getLastD_eq_get _ _ (by
        cases groupKeys with
        | nil => exact absurd rfl hkne
        | cons _ _ => simp)
    rw [hkl]
    have hmeq : m = groupKeys.length - 1 := by omega
    subst hmeq
    simp
  · intro hb
    have hb' : elt v l0 = true := hb
    have hnan : isnan v = false := not_nan_of_elt_left hb'
    have hb0 : ¬ (ebeq v l0 = true) := by
      intro h
      rw [eq_of_ebeq h, elt_irrefl] at hb'
      exact Bool.false_ne_true hb'
    have hblast : ¬ (ebeq v ((l0 :: tl).getLastD .nan) = true) := by
      intro h
      have hveq := eq_of_ebeq h
      rcases Nat.lt_or_ge ((l0 :: tl).length) 2 with hn1 | hn2
      · have htl : tl = [] := by
          cases tl with
          | nil => rfl
          | cons x xs =>
            exfalso
            simp only [List.length_cons] at hn1
            omega
        subst htl
        have hvl0 : v = l0 := by simpa [List.getLastD] using hveq
        rw [hvl0, elt_irrefl] at hb'
        exact Bool.false_ne_true hb'
      · have hlt : elt ((l0 :: tl).get ⟨0, by simp⟩)
            ((l0 :: tl).get ⟨(l0 :: tl).length - 1, by simp⟩) = true :=
          sorted_get_lt hsort (by omega) (by simp)
        rw [← hlastD, ← hveq] at hlt
        have hco : elt v ((l0 :: tl).get ⟨0, by simp⟩) = false := elt_asymm hlt
        have hco' : elt v l0 = false := hco
        rw [hb'] at hco'
        simp at hco'
    rw [sortValueIntoGroup_run groupKeys l0 tl v hlen' hnan, if_neg hb0, if_neg hblast]
    have hb'' : elt v ((l0 :: tl).get ⟨0, by simp⟩) = true := hb'
    have hfki : findKeyIndex v (l0 :: tl) 0 = some (0 + 0) :=
      findKeyIndex_eq_some v (l0 :: tl) 0 (by simp) hb''
        (fun m hm => absurd hm (Nat.not_lt_zero m)) 0
    rw [hfki]
  · intro ha
    have hnan : isnan v = false := not_nan_of_elt_right ha
    have hlastnan : isnan ((l0 :: tl).getLastD .nan) = false := not_nan_of_elt_left ha
    have hele_last : ∀ (m : Nat) (hm : m < (l0 :: tl).length),
        ele ((l0 :: tl).get ⟨m, hm⟩) ((l0 :: tl).getLastD .nan) = true := by
      intro m hm
      rw [hlastD]
      rcases Nat.lt_or_ge m ((l0 :: tl).length - 1) with hlt | hge
      · exact ele_of_elt (sorted_get_lt hsort hlt (by simp))
      · have hmeq : m = (l0 :: tl).length - 1 := by omega
        subst hmeq
        have hnn : isnan ((l0 :: tl).get ⟨(l0 :: tl).length - 1, hm⟩) = false := by
          rw [hlastD] at hlastnan
          exact hlastnan
        exact ele_of_ebeq (ebeq_self hnn)
    have hb0 : ¬ (ebeq v l0 = true) := by
      intro h
      have hveq := eq_of_ebeq h
      have hele : ele l0 ((l0 :: tl).getLastD .nan) = true := hele_last 0 (by simp)
      rw [hveq] at ha
      have hvv : elt ((l0 :: tl).getLastD .nan) ((l0 :: tl).getLastD .nan) = true :=
        elt_of_elt_of_ele ha hele
      rw [elt_irrefl] at hvv
      exact Bool.false_ne_true hvv
    have hblast : ¬ (ebeq v ((l0 :: tl).getLastD .nan) = true) := by
      intro h
      rw [eq_of_ebeq h] at ha
      rw [elt_irrefl] at ha
      exact Bool.false_ne_true ha
    have hfki : findKeyIndex v (l0 :: tl) 0 = none := by
      refine findKeyIndex_eq_none v (l0 :: tl) ?_ 0
      intro m hm
      have hele := hele_last m hm
      have helt : elt ((l0 :: tl).get ⟨m, hm⟩) v = true := elt_of_ele_of_elt hele ha
      exact elt_asymm helt
    rw [sortValueIntoGroup_run groupKeys l0 tl v hlen' hnan, if_neg hb0, if_neg hblast, hfki]

/-- Witness for C9: with keys `["1 to 3", "3 to 5"]` and limits `[1, 3, 5]`,
the boundary value 3 falls in the second bin. -/
theorem c9_witness :
    sortValueIntoGroup ["1 to 3", "3 to 5"] [.fin 1, .fin 3, .fin 5] (.fin 3)
      = .ok "3 to 5" := by
  have h := c9_sortValueIntoGroup_spec ["1 to 3", "3 to 5"] [.fin 1, .fin 3, .fin 5]
    (.fin 3) (by decide) (by
      refine List.Pairwise.cons ?_ (List.Pairwise.cons ?_ (List.Pairwise.cons ?_ .nil)) <;>
        intro b hb <;> fin_cases hb <;> decide)
  exact h.2.2.1 1 (by decide) (by decide) (by decide)

/-! ## C10 -/

/-- When the length precondition holds, `sortValueIntoGroup` never raises
`ValueError`. -/
theorem sortValueIntoGroup_ne_valueError (ks : List String) (ls : List EFloat)
    (v : EFloat) (hlen : ks.length + 1 = ls.length) :
    sortValueIntoGroup ks ls v ≠ .error .valueError := by
  unfold sortValueIntoGroup
  rw [if_neg (by omega)]
  by_cases hn : isnan v = true
  · rw [if_pos hn]
    simp
  · rw [if_neg hn]
    repeat' split
    · cases hk : ks[0]? <;> simp [hk]
    · cases hl : ls.length - 1 with
      | zero => simp [hl]
      | succ j =>
        simp only [hl]
        cases hk : ks[j]? <;> simp [hk]
    · cases hf : findKeyIndex v ls 0 with
      | none => simp [hf]
      | some k =>
        simp only [hf]
        cases k with
        | zero => simp
        | succ j =>
          cases hk : ks[j]? <;> simp [hk]

/-- C10 counterexample: the two-entry bin-limit list `[-inf, +inf]` is within
the claim's stated domain (two entries, optionally starting with `-inf` and
ending with `+inf`), but `_genKeysBins` raises `IndexError`
(`midbinlimits[0]` on the emptied list) instead of producing a key list. -/
theorem c10_counterexample :
    _genKeysBins [.ninf, .inf] = none
    ∧ 2 ≤ ([EFloat.ninf, EFloat.inf] : List EFloat).length :=
  ⟨rfl, by decide⟩

/-- C10 amended: for every bin-limit list of at least two entries, except the
single crashing case of exactly the two entries `-inf, +inf` (where key
generation raises `IndexError`), the generated key list has exactly
`len(binLimits)` entries, its last entry is `'Uncertain'`, and the call
`_getSortKey` makes (`sortValueIntoGroup` with the first `len-1` keys and the
full limit list) satisfies the `len(groupKeys) == len(groupLimits) - 1`
precondition, so it never raises `ValueError`. -/
theorem c10_genKeysBins_length (binlimits : List EFloat) (h2 : 2 ≤ binlimits.length)
    (hx : ¬(binlimits.length = 2 ∧ binlimits.headD .nan = .ninf
        ∧ binlimits.getLastD .nan = .inf)) :
    ∃ ks, _genKeysBins binlimits = some ks
      ∧ ks.length = binlimits.length
      ∧ ks.getLast? = some "Uncertain"
      ∧ ks.dropLast.length + 1 = binlimits.length
      ∧ ∀ v, sortValueIntoGroup ks.dropLast binlimits v ≠ .error .valueError := by
  obtain ⟨b0, tl0, rfl⟩ : ∃ a t, binlimits = a :: t := by
    cases binlimits with
    | nil =>
      exfalso
      simp at h2
    | cons a t => exact ⟨a, t, rfl⟩
  obtain ⟨b1, rest, rfl⟩ : ∃ a t, tl0 = a :: t := by
    cases tl0 with
    | nil =>
      exfalso
      simp at h2
    | cons a t => exact ⟨a, t, rfl⟩
  obtain ⟨blast, hbl⟩ : ∃ x, (b0 :: b1 :: rest).getLast? = some x := by
    have := List.getLast?_isSome.mpr (show (b0 :: b1 :: rest) ≠ [] by simp)
    exact Option.isSome_iff_exists.mp this
  have hlastD : (b0 :: b1 :: rest).getLastD .nan = blast := by
    rw [List.getLastD_eq_getLast?, hbl]
    rfl
  have huncertain : ∀ (A B C : List String),
      (A ++ (B ++ (C ++ ["Uncertain"]))).getLast? = some "Uncertain" := by
    intro A B C
    rw [← List.append_assoc, ← List.append_assoc]
    exact List.getLast?_concat _
  by_cases hb0 : ebeq b0 .ninf = true
  · by_cases hblinf : ebeq blast .inf = true
    · -- both trims: need at least three limits
      obtain ⟨r0, rs, rfl⟩ : ∃ a t, rest = a :: t := by
        cases rest with
        | nil =>
          exfalso
          refine hx ⟨by simp, ?_, ?_⟩
          · simpa using (ebeq_ninf_iff b0).mp hb0
          · rw [hlastD]
            exact (ebeq_inf_iff blast).mp hblinf
        | cons a t => exact ⟨a, t, rfl⟩
      obtain ⟨sndLast, hsnd⟩ : ∃ x, (b0 :: b1 :: r0 :: rs).dropLast.getLast? = some x := by
        have hne : (b0 :: b1 :: r0 :: rs).dropLast ≠ [] := by
          simp [List.dropLast_cons₂]
        exact Option.isSome_iff_exists.mp (List.getLast?_isSome.mpr hne)
      simp only [List.dropLast_cons₂] at hsnd
      refine ⟨["<" ++ efRepr b1] ++ genKeysLoop b1 ((r0 :: rs).dropLast)
          ++ [efRepr sndLast ++ "+"] ++ ["Uncertain"], ?_, ?_, ?_, ?_, ?_⟩
      · simp only [_genKeysBins, hbl, List.head?_cons, List.tail_cons, hb0, if_true,
          hblinf, List.dropLast_cons₂, hsnd]
      · simp only [List.length_append, List.length_cons, List.length_nil,
          genKeysLoop_length, List.length_dropLast]
        omega
      · rw [List.append_assoc, List.append_assoc]
        exact huncertain _ _ _
      · simp only [List.length_dropLast, List.length_append, List.length_cons,
          List.length_nil, genKeysLoop_length]
        omega
      · intro v
        refine sortValueIntoGroup_ne_valueError _ _ v ?_
        simp only [List.length_dropLast, List.length_append, List.length_cons,
          List.length_nil, genKeysLoop_length]
        omega
    · -- lower trim only
      refine ⟨["<" ++ efRepr b1] ++ genKeysLoop b1 rest ++ [] ++ ["Uncertain"],
          ?_, ?_, ?_, ?_, ?_⟩
      · simp only [_genKeysBins, hbl, List.head?_cons, List.tail_cons, hb0, if_true,
          hblinf, Bool.false_eq_true, if_false]
      · simp only [List.length_append, List.length_cons, List.length_nil,
          genKeysLoop_length]
        omega
      · rw [List.append_assoc, List.append_assoc]
        exact huncertain _ _ _
      · simp only [List.length_dropLast, List.length_append, List.length_cons,
          List.length_nil, genKeysLoop_length]
        omega
      · intro v
        refine sortValueIntoGroup_ne_valueError _ _ v ?_
        simp only [List.length_dropLast, List.length_append, List.length_cons,
          List.length_nil, genKeysLoop_length]
        omega
  · by_cases hblinf : ebeq blast .inf = true
    · -- upper trim only
      obtain ⟨sndLast, hsnd⟩ : ∃ x, (b0 :: b1 :: rest).dropLast.getLast? = some x := by
        have hne : (b0 :: b1 :: rest).dropLast ≠ [] := by
          simp [List.dropLast_cons₂]
        exact Option.isSome_iff_exists.mp (List.getLast?_isSome.mpr hne)
      simp only [List.dropLast_cons₂] at hsnd
      refine ⟨[] ++ genKeysLoop b0 ((b1 :: rest).dropLast)
          ++ [efRepr sndLast ++ "+"] ++ ["Uncertain"], ?_, ?_, ?_, ?_, ?_⟩
      · simp only [_genKeysBins, hbl, List.head?_cons, List.tail_cons, hb0,
          Bool.false_eq_true, if_false, hblinf, if_true, List.dropLast_cons₂, hsnd]
      · simp only [List.length_append, List.length_cons, List.length_nil,
          genKeysLoop_length, List.length_dropLast]
        omega
      · rw [List.append_assoc, List.append_assoc]
        exact huncertain _ _ _
      · simp only [List.length_dropLast, List.length_append, List.length_cons,
          List.length_nil, genKeysLoop_length]
        omega
      · intro v
        refine sortValueIntoGroup_ne_valueError _ _ v ?_
        simp only [List.length_dropLast, List.length_append, List.length_cons,
          List.length_nil, genKeysLoop_length]
        omega
    · -- no trims
      refine ⟨[] ++ genKeysLoop b0 (b1 :: rest) ++ [] ++ ["Uncertain"],
          ?_, ?_, ?_, ?_, ?_⟩
      · simp only [_genKeysBins, hbl, List.head?_cons, List.tail_cons, hb0,
          Bool.false_eq_true, if_false, hblinf]
      · simp only [List.length_append, List.length_cons, List.length_nil,
          genKeysLoop_length]
        omega
      · rw [List.append_assoc, List.append_assoc]
        exact huncertain _ _ _
      · simp only [List.length_dropLast, List.length_append, List.length_cons,
          List.length_nil, genKeysLoop_length]
        omega
      · intro v
        refine sortValueIntoGroup_ne_valueError _ _ v ?_
        simp only [List.length_dropLast, List.length_append, List.length_cons,
          List.length_nil, genKeysLoop_length]
        omega

/-- Witness for C10 amended at the limits `[1, 3, +inf]`. -/
theorem c10_witness :
    ∃ ks, _genKeysBins [.fin 1, .fin 3, .inf] = some ks
      ∧ ks.length = ([EFloat.fin 1, EFloat.fin 3, EFloat.inf] : List EFloat).length
      ∧ ks.getLast? = some "Uncertain"
      ∧ ks.dropLast.length + 1 = ([EFloat.fin 1, EFloat.fin 3, EFloat.inf] : List EFloat).length
      ∧ ∀ v, sortValueIntoGroup ks.dropLast [.fin 1, .fin 3, .inf] v ≠ .error .valueError :=
  c10_genKeysBins_length [.fin 1, .fin 3, .inf] (by decide) (by decide)
